import Mathlib

/-!
Shallow embedding of the recommendation system's online scoring tier
(feature-service and ranking-service) together with proofs about its
behaviour.  Python floats are modelled as rationals (`ℚ`), timestamps as
integers (seconds since the epoch), dictionaries as association lists in
insertion order, and fallible calls as `Option`/`Except` values.
-/

namespace Rec

/-- Closed action enumeration, from `feature-service/app/models/schemas.py`
(`ActionType`). -/
inductive ActionType where
  | view
  | click
  | like
  | share
  | comment
  | purchase
deriving DecidableEq, Repr, Fintype

/-- Closed content-kind enumeration, from
`feature-service/app/models/schemas.py` (`ContentType`). -/
inductive ContentType where
  | article
  | video
  | product
deriving DecidableEq, Repr

/-- The `behavior_weights` table of
`feature-service/app/services/user_feature_service.py`
(`UserFeatureService.__init__`): view 1, click 2, like 3, share 4,
comment 3.5, purchase 5. -/
def behaviorWeights : ActionType → ℚ
  | .view => 1
  | .click => 2
  | .like => 3
  | .share => 4
  | .comment => 7/2
  | .purchase => 5

/-- The `multiIf` weight table of the viewer-aggregates template
(`ClickHouseService.compute_user_offline_features`,
`feature-service/app/services/clickhouse_service.py`). -/
def userOfflineBehaviorWeight : ActionType → ℚ
  | .view => 1
  | .click => 2
  | .like => 3
  | .share => 4
  | .comment => 7/2
  | .purchase => 5

/-- The `multiIf` weight table of the item-aggregates / popularity template
(`ClickHouseService.compute_content_offline_features`,
`feature-service/app/services/clickhouse_service.py`): share weighs 5,
comment 4, purchase 10. -/
def contentOfflinePopularityWeight : ActionType → ℚ
  | .view => 1
  | .click => 2
  | .like => 3
  | .share => 5
  | .comment => 4
  | .purchase => 10

/-- The `multiIf` weight table of the interaction-matrix template
(`ClickHouseService.compute_user_content_interaction_matrix`,
`feature-service/app/services/clickhouse_service.py`). -/
def interactionMatrixWeight : ActionType → ℚ
  | .view => 1
  | .click => 2
  | .like => 3
  | .share => 4
  | .comment => 7/2
  | .purchase => 5

/-- The `multiIf` weight table of the trending template
(`ClickHouseService.get_trending_contents`,
`feature-service/app/services/clickhouse_service.py`): share weighs 5,
comment 4, and `purchase` has no branch so it falls to the `multiIf`
default 0. -/
def trendingWeight : ActionType → ℚ
  | .view => 1
  | .click => 2
  | .like => 3
  | .share => 5
  | .comment => 4
  | .purchase => 0

/-- The fields of `UserFeatures`
(`feature-service/app/models/schemas.py`) touched by the ingestion-time
incremental patch. -/
structure UserFeaturesM where
  user_id : String
  interests : List String
  behavior_score : ℚ
  activity_level : String
  last_active : Option ℤ
deriving DecidableEq, Repr

/-- A behavior event as consumed by `process_user_behavior`
(`UserBehavior` in `feature-service/app/models/schemas.py`; timestamps in
seconds). -/
structure UserBehaviorM where
  action_type : ActionType
  content_type : ContentType
  timestamp : ℤ
deriving DecidableEq, Repr

/-- `UserFeatureService._create_default_features`. -/
def createDefaultFeatures (uid : String) : UserFeaturesM :=
  { user_id := uid
    interests := []
    behavior_score := 0
    activity_level := "low"
    last_active := none }

/-- `UserFeatureService._update_interest_tags`: articles add the "tech"
tag, videos the "entertainment" tag, if not already present. -/
def updateInterestTags (f : UserFeaturesM) (b : UserBehaviorM) : UserFeaturesM :=
  match b.content_type with
  | .article => if "tech" ∈ f.interests then f
                else { f with interests := f.interests ++ ["tech"] }
  | .video => if "entertainment" ∈ f.interests then f
              else { f with interests := f.interests ++ ["entertainment"] }
  | .product => f

/-- `UserFeatureService._update_activity_level`: promote one step when the
previous `last_active` is within one hour of the event. -/
def updateActivityLevel (f : UserFeaturesM) (b : UserBehaviorM) : UserFeaturesM :=
  match f.last_active with
  | none => f
  | some t =>
      if b.timestamp - t < 3600 then
        if f.activity_level = "low" then { f with activity_level := "medium" }
        else if f.activity_level = "medium" then { f with activity_level := "high" }
        else f
      else f

/-- `UserFeatureService.process_user_behavior`, the ingestion-time
incremental patch: bump `behavior_score` by `weight * 0.1` (no clamp),
update interests, activity level and `last_active`. -/
def processUserBehavior (f : UserFeaturesM) (b : UserBehaviorM) : UserFeaturesM :=
  let f1 := { f with behavior_score := f.behavior_score + behaviorWeights b.action_type * (1/10) }
  let f2 := updateInterestTags f1 b
  let f3 := updateActivityLevel f2 b
  { f3 with last_active := some b.timestamp }

/-- The `behavior_score` produced by the offline recomputation path
(`UserFeatureService._compute_user_features`): the weighted total over the
grouped rows, divided by 100 and clamped above by 10
(`min(total_score / 100.0, 10.0)`). -/
def offlineBehaviorScore (rows : List (ActionType × ℕ)) : ℚ :=
  min ((rows.map (fun r => behaviorWeights r.1 * (r.2 : ℚ))).sum / 100) 10

/-- A purchase event at time `t` (product content), used as a concrete
patch sequence. -/
def purchaseEventAt (t : ℤ) : UserBehaviorM :=
  { action_type := .purchase, content_type := .product, timestamp := t }

/-- Apply `n` consecutive purchase patches to the default features. -/
def repeatedPurchases (n : ℕ) : UserFeaturesM :=
  (List.range n).foldl (fun f (i : ℕ) => processUserBehavior f (purchaseEventAt (i : ℤ)))
    (createDefaultFeatures "u")

lemma behaviorWeights_nonneg (a : ActionType) : 0 ≤ behaviorWeights a := by
  cases a <;> norm_num [behaviorWeights]

lemma updateInterestTags_behavior_score (f : UserFeaturesM) (b : UserBehaviorM) :
    (updateInterestTags f b).behavior_score = f.behavior_score := by
  unfold updateInterestTags
  cases b.content_type <;> dsimp only <;> split_ifs <;> rfl

lemma updateActivityLevel_behavior_score (f : UserFeaturesM) (b : UserBehaviorM) :
    (updateActivityLevel f b).behavior_score = f.behavior_score := by
  unfold updateActivityLevel
  cases f.last_active
  · rfl
  · dsimp only
    split_ifs <;> rfl

lemma processUserBehavior_behavior_score (f : UserFeaturesM) (b : UserBehaviorM) :
    (processUserBehavior f b).behavior_score
      = f.behavior_score + behaviorWeights b.action_type * (1/10) := by
  unfold processUserBehavior
  rw [show ∀ g : UserFeaturesM, ({ g with last_active := some b.timestamp } : UserFeaturesM).behavior_score = g.behavior_score from fun g => rfl]
  rw [updateActivityLevel_behavior_score, updateInterestTags_behavior_score]

lemma repeatedPurchases_score (n : ℕ) :
    (repeatedPurchases n).behavior_score = (n : ℚ) / 2 := by
  induction n with
  | zero => simp [repeatedPurchases, createDefaultFeatures]
  | succ n ih =>
      unfold repeatedPurchases at ih ⊢
      rw [List.range_succ, List.foldl_append, List.foldl_cons, List.foldl_nil,
        processUserBehavior_behavior_score, ih]
      show (n : ℚ) / 2 + behaviorWeights ActionType.purchase * (1/10) = _
      rw [show behaviorWeights ActionType.purchase = 5 from rfl]
      push_cast
      ring

lemma offlineBehaviorScore_range (rows : List (ActionType × ℕ)) :
    0 ≤ offlineBehaviorScore rows ∧ offlineBehaviorScore rows ≤ 10 := by
  unfold offlineBehaviorScore
  refine ⟨le_min ?_ (by norm_num), min_le_right _ _⟩
  apply div_nonneg _ (by norm_num)
  apply List.sum_nonneg
  intro x hx
  simp only [List.mem_map] at hx
  obtain ⟨r, -, rfl⟩ := hx
  exact mul_nonneg (behaviorWeights_nonneg r.1) (Nat.cast_nonneg r.2)

/-- C4 counterexample: twenty-one consecutive `purchase` patches applied by
`process_user_behavior` to the default features leave `behavior_score`
at 10.5, outside `[0, 10]`. -/
theorem c4_counterexample :
    (repeatedPurchases 21).behavior_score = 21/2 ∧
      ¬ (repeatedPurchases 21).behavior_score ≤ 10 := by
  have h := repeatedPurchases_score 21
  norm_num at h
  constructor
  · rw [h]
  · rw [h]; norm_num

/-- C4 (amended): the offline recomputation clamps `behavior_score` into
`[0, 10]`, but the ingestion-time incremental patch adds `0.1 * weight`
with no clamp, so `n` purchase patches from the default features give
score `n/2`, which leaves `[0, 10]` once `n > 20`. -/
theorem c4_behavior_score_clamp :
    (∀ rows : List (ActionType × ℕ),
        0 ≤ offlineBehaviorScore rows ∧ offlineBehaviorScore rows ≤ 10) ∧
    (∀ n : ℕ, (repeatedPurchases n).behavior_score = (n : ℚ) / 2) :=
  ⟨offlineBehaviorScore_range, repeatedPurchases_score⟩

/-- C5 counterexample: the item-aggregates / popularity template weighs
`share` at 5 and the trending template weighs `purchase` at 0, so neither
matches the fixed table `{view:1, click:2, like:3, share:4, comment:3.5,
purchase:5}` used by the viewer templates. -/
theorem c5_counterexample :
    contentOfflinePopularityWeight ActionType.share ≠ behaviorWeights ActionType.share ∧
      trendingWeight ActionType.purchase ≠ behaviorWeights ActionType.purchase := by
  constructor <;> norm_num [contentOfflinePopularityWeight, trendingWeight, behaviorWeights]

/-- C5 (amended): the viewer-aggregates and interaction-matrix templates use
the canonical table `{view:1, click:2, like:3, share:4, comment:3.5,
purchase:5}`, but the item-aggregates / popularity template uses
`{share:5, comment:4, purchase:10}` and the trending template uses
`{share:5, comment:4}` with no `purchase` branch (weight 0). -/
theorem c5_weight_tables :
    (∀ a, userOfflineBehaviorWeight a = behaviorWeights a) ∧
    (∀ a, interactionMatrixWeight a = behaviorWeights a) ∧
    contentOfflinePopularityWeight ActionType.view = 1 ∧
    contentOfflinePopularityWeight ActionType.click = 2 ∧
    contentOfflinePopularityWeight ActionType.like = 3 ∧
    contentOfflinePopularityWeight ActionType.share = 5 ∧
    contentOfflinePopularityWeight ActionType.comment = 4 ∧
    contentOfflinePopularityWeight ActionType.purchase = 10 ∧
    trendingWeight ActionType.share = 5 ∧
    trendingWeight ActionType.comment = 4 ∧
    trendingWeight ActionType.purchase = 0 :=
  ⟨fun a => by cases a <;> rfl, fun a => by cases a <;> rfl,
    rfl, rfl, rfl, rfl, rfl, rfl, rfl, rfl, rfl⟩

/-!
### Stable descending sort

Python's `sorted(..., key=k, reverse=True)` and `list.sort(key=k,
reverse=True)` are stable: the output is non-increasing in the key and
elements with equal keys keep their input order.  We model this
observable behaviour by insertion sort: a later element is inserted after
every earlier element whose key is at least its own.
-/

/-- Insert `a` into a descending-sorted list, after all entries whose key
is `≥ key a` (so equal keys keep their earlier-first order). -/
def insertDesc {α : Type} (key : α → ℚ) (a : α) : List α → List α
  | [] => [a]
  | b :: bs => if key a ≤ key b then b :: insertDesc key a bs else a :: b :: bs

/-- Stable sort by descending key: the observable behaviour of Python's
stable `sorted(..., key=key, reverse=True)`. -/
def pySortDesc {α : Type} (key : α → ℚ) (l : List α) : List α :=
  l.foldl (fun acc a => insertDesc key a acc) []

lemma insertDesc_perm {α : Type} (key : α → ℚ) (a : α) (l : List α) :
    (insertDesc key a l).Perm (a :: l) := by
  induction l with
  | nil => rfl
  | cons b bs ih =>
      unfold insertDesc
      split_ifs
      · exact (ih.cons b).trans (List.Perm.swap a b bs)
      · rfl

lemma foldl_insertDesc_perm {α : Type} (key : α → ℚ) :
    ∀ (l acc : List α), (l.foldl (fun acc a => insertDesc key a acc) acc).Perm (acc ++ l) := by
  intro l
  induction l with
  | nil => simp
  | cons a l ih =>
      intro acc
      refine ((ih (insertDesc key a acc)).trans ?_)
      refine (((insertDesc_perm key a acc).append_right l).trans ?_)
      exact List.perm_middle.symm

lemma pySortDesc_perm {α : Type} (key : α → ℚ) (l : List α) :
    (pySortDesc key l).Perm l :=
  foldl_insertDesc_perm key l []

lemma insertDesc_sorted {α : Type} (key : α → ℚ) (a : α) (l : List α)
    (hl : l.Pairwise (fun x y => key y ≤ key x)) :
    (insertDesc key a l).Pairwise (fun x y => key y ≤ key x) := by
  induction l with
  | nil => simp [insertDesc]
  | cons b bs ih =>
      rw [List.pairwise_cons] at hl
      by_cases h : key a ≤ key b
      · rw [insertDesc, if_pos h, List.pairwise_cons]
        refine ⟨?_, ih hl.2⟩
        intro x hx
        rcases List.mem_cons.1 ((insertDesc_perm key a bs).mem_iff.1 hx) with hx | hx
        · subst hx; exact h
        · exact hl.1 x hx
      · rw [insertDesc, if_neg h, List.pairwise_cons]
        push_neg at h
        refine ⟨?_, List.pairwise_cons.2 hl⟩
        intro x hx
        rcases List.mem_cons.1 hx with hx | hx
        · subst hx; exact le_of_lt h
        · exact le_trans (hl.1 x hx) (le_of_lt h)

lemma pySortDesc_sorted {α : Type} (key : α → ℚ) (l : List α) :
    (pySortDesc key l).Pairwise (fun x y => key y ≤ key x) := by
  suffices h : ∀ (l acc : List α), acc.Pairwise (fun x y => key y ≤ key x) →
      (l.foldl (fun acc a => insertDesc key a acc) acc).Pairwise (fun x y => key y ≤ key x) by
    exact h l [] (by simp)
  intro l
  induction l with
  | nil => intro acc h; simpa using h
  | cons a l ih =>
      intro acc hacc
      exact ih (insertDesc key a acc) (insertDesc_sorted key a acc hacc)

lemma insertDesc_filter_eq {α : Type} (key : α → ℚ) (a : α) (q : ℚ) (l : List α)
    (hl : l.Pairwise (fun x y => key y ≤ key x)) :
    (insertDesc key a l).filter (fun x => decide (key x = q)) =
      l.filter (fun x => decide (key x = q)) ++
        (if key a = q then [a] else []) := by
  induction l with
  | nil =>
      rcases Decidable.em (key a = q) with ha | ha <;>
        simp [insertDesc, List.filter_cons, ha]
  | cons b bs ih =>
      rw [List.pairwise_cons] at hl
      by_cases h : key a ≤ key b
      · rw [insertDesc, if_pos h, List.filter_cons, List.filter_cons, ih hl.2]
        rcases Decidable.em (key b = q) with hb | hb
        · rw [show (decide (key b = q)) = true by simp [hb]]
          simp
        · rw [show (decide (key b = q)) = false by simp [hb]]
          simp
      · rw [insertDesc, if_neg h]
        push_neg at h
        rcases Decidable.em (key a = q) with ha | ha
        · have hfilter : (b :: bs).filter (fun x => decide (key x = q)) = [] := by
            rw [List.filter_eq_nil_iff]
            intro x hx
            have hlt : key x < key a := by
              rcases List.mem_cons.1 hx with hx | hx
              · subst hx; exact h
              · exact lt_of_le_of_lt (hl.1 x hx) h
            simp only [decide_eq_true_eq]
            intro hxq
            rw [hxq, ha] at hlt
            exact lt_irrefl _ hlt
          rw [List.filter_cons, show (decide (key a = q)) = true by simp [ha],
            if_pos ha, hfilter]
          simp
        · rw [List.filter_cons, show (decide (key a = q)) = false by simp [ha],
            if_neg ha]
          simp

lemma pySortDesc_filter_eq {α : Type} (key : α → ℚ) (l : List α) (q : ℚ) :
    (pySortDesc key l).filter (fun x => decide (key x = q)) =
      l.filter (fun x => decide (key x = q)) := by
  suffices h : ∀ (l acc : List α), acc.Pairwise (fun x y => key y ≤ key x) →
      (l.foldl (fun acc a => insertDesc key a acc) acc).filter (fun x => decide (key x = q)) =
        acc.filter (fun x => decide (key x = q)) ++ l.filter (fun x => decide (key x = q)) by
    simpa using h l [] (by simp)
  intro l
  induction l with
  | nil => intro acc _; simp
  | cons a l ih =>
      intro acc hacc
      rw [List.foldl_cons, ih (insertDesc key a acc) (insertDesc_sorted key a acc hacc),
        insertDesc_filter_eq key a q acc hacc, List.filter_cons]
      rcases Decidable.em (key a = q) with ha | ha
      · rw [show (decide (key a = q)) = true by simp [ha]]
        simp [ha]
      · rw [show (decide (key a = q)) = false by simp [ha]]
        simp [ha]

/-!
### Inference batcher

`ranking-service/app/models/model_server.py`: the batch-processor loop
seals the first `min(len(pending), max_batch_size)` pending requests as a
batch and `_process_batch` assigns scorer outputs back positionally.
-/

/-- A pending prediction request (`PredictionRequest`): its feature
payload and its result slot, `none` until `set_result` runs. -/
structure PredictionRequestM (F : Type) where
  features : F
  result : Option ℚ
deriving DecidableEq, Repr

/-- `ModelServer.predict_batch_sync`: raises (`.error`) when no model is
loaded (`if not self.model: raise ValueError`); otherwise returns the
scorer's output, or `[0.0] * len(features_list)` when the underlying
predict call raises (the inner `except` branch).  The scorer is modelled
as a function returning `none` when it raises. -/
def predictBatchSync {F : Type} (modelLoaded : Bool)
    (scorer : List F → Option (List ℚ)) (fs : List F) : Except Unit (List ℚ) :=
  if modelLoaded then
    match scorer fs with
    | some ys => .ok ys
    | none => .ok (List.replicate fs.length 0)
  else .error ()

/-- The zip-assignment of `_process_batch`'s success path:
`for req, score in zip(batch_requests, scores): req.set_result(score)`.
Requests beyond the scorer output keep an empty result slot. -/
def zipSetResults {F : Type} :
    List (PredictionRequestM F) → List ℚ → List (PredictionRequestM F)
  | [], _ => []
  | rs, [] => rs
  | r :: rs, s :: ss => { r with result := some s } :: zipSetResults rs ss

/-- `ModelServer._process_batch`: extract the features in request order,
run `predict_batch_sync`, and assign scores positionally; if the batch
call raises, set every request's result to `0.0`. -/
def processBatch {F : Type} (modelLoaded : Bool)
    (scorer : List F → Option (List ℚ))
    (reqs : List (PredictionRequestM F)) : List (PredictionRequestM F) :=
  match predictBatchSync modelLoaded scorer (reqs.map (fun r => r.features)) with
  | .ok scores => zipSetResults reqs scores
  | .error _ => reqs.map (fun r => { r with result := some 0 })

/-- One iteration of the `_start_batch_processor` loop: seal the first
`min(len(pending), max_batch_size)` pending requests, in arrival order,
as a batch (`pending_requests[:batch_size]`), process it, and leave the
rest pending. -/
def batcherStep {F : Type} (maxBatchSize : ℕ) (modelLoaded : Bool)
    (scorer : List F → Option (List ℚ))
    (pending : List (PredictionRequestM F)) :
    List (PredictionRequestM F) × List (PredictionRequestM F) :=
  (processBatch modelLoaded scorer (pending.take maxBatchSize),
    pending.drop maxBatchSize)

lemma zipSetResults_getElem {F : Type} :
    ∀ (rs : List (PredictionRequestM F)) (ss : List ℚ) (i : ℕ)
      (hr : i < rs.length) (hs : i < ss.length),
      (zipSetResults rs ss)[i]? =
        some { rs.get ⟨i, hr⟩ with result := some (ss.get ⟨i, hs⟩) } := by
  intro rs
  induction rs with
  | nil => intro ss i hr _; exact absurd hr (by simp)
  | cons r rs ih =>
      intro ss i hr hs
      cases ss with
      | nil => exact absurd hs (by simp)
      | cons s ss =>
          cases i with
          | zero => simp [zipSetResults]
          | succ i =>
              have hr' : i < rs.length := by simpa using hr
              have hs' : i < ss.length := by simpa using hs
              simpa [zipSetResults] using ih ss i hr' hs'

lemma zipSetResults_replicate_zero {F : Type} :
    ∀ (rs : List (PredictionRequestM F)) (n : ℕ), rs.length ≤ n →
      ∀ r ∈ zipSetResults rs (List.replicate n 0), r.result = some 0 := by
  intro rs
  induction rs with
  | nil => intro n _ r hr; simp [zipSetResults] at hr
  | cons x rs ih =>
      intro n hn r hr
      cases n with
      | zero => exact absurd hn (by simp)
      | succ n =>
          rw [List.replicate_succ, zipSetResults] at hr
          rcases List.mem_cons.1 hr with hr | hr
          · subst hr; rfl
          · exact ih n (by simpa using hn) r hr

/-- C2: batch order preservation.  If the batcher seals the first
`min(len(pending), maxBatchSize)` pending requests as a batch and the
scorer returns the list `ys` for that batch's features, then the `i`-th
request of the batch receives exactly `ys[i]`. -/
theorem c2_batch_order_preservation {F : Type} (maxBatchSize : ℕ)
    (scorer : List F → Option (List ℚ))
    (pending : List (PredictionRequestM F)) (ys : List ℚ)
    (hs : scorer ((pending.take maxBatchSize).map (fun r => r.features)) = some ys)
    (i : ℕ) (hi : i < (pending.take maxBatchSize).length) (hy : i < ys.length) :
    ((batcherStep maxBatchSize true scorer pending).1)[i]? =
      some { (pending.take maxBatchSize).get ⟨i, hi⟩ with
             result := some (ys.get ⟨i, hy⟩) } := by
  unfold batcherStep processBatch predictBatchSync
  rw [if_pos rfl, hs]
  exact zipSetResults_getElem _ ys i hi hy

/-- A concrete scorer for the batcher witnesses: ignores its input and
returns the fixed score list `[3/2, 5/2]`. -/
def constPairScorer : List ℕ → Option (List ℚ) := fun _ => some [3/2, 5/2]

/-- A concrete scorer that always raises. -/
def alwaysFailScorer : List ℕ → Option (List ℚ) := fun _ => none

/-- Three concrete pending requests with feature payloads 10, 20, 30. -/
def cPending : List (PredictionRequestM ℕ) :=
  [{ features := 10, result := none },
   { features := 20, result := none },
   { features := 30, result := none }]

/-- Witness for C2: with `maxBatchSize = 2` the second submitter of the
sealed batch receives the second scorer output `5/2`. -/
theorem c2_batch_order_preservation_witness :
    ((batcherStep 2 true constPairScorer cPending).1)[1]? =
      some { features := 20, result := some (5/2) } := by
  have h := c2_batch_order_preservation 2 constPairScorer cPending [3/2, 5/2]
    rfl 1 (by simp [cPending]) (by simp)
  simpa [cPending] using h

/-- C3 counterexample: when the batch score call raises, every caller in
the sealed batch receives the numeric score `0.0` (`set_result(0.0)`);
no caller observes an `INFERENCE_ERROR` failure — the repository has no
such error kind, and the result slot of every request is populated with
a number. -/
theorem c3_counterexample :
    ((batcherStep 64 true alwaysFailScorer cPending).1).map
        (fun r => r.result) = [some 0, some 0, some 0] := by
  simp [batcherStep, processBatch, predictBatchSync, alwaysFailScorer, cPending,
    zipSetResults, List.replicate]

/-- C3 (amended): if the batch's `batchScore` call fails — either the
model is not loaded or the underlying predict raises — every caller in
the sealed batch receives the default numeric score `0.0` instead of an
error. -/
theorem c3_failed_batch_returns_zero {F : Type} (maxBatchSize : ℕ)
    (modelLoaded : Bool) (scorer : List F → Option (List ℚ))
    (pending : List (PredictionRequestM F))
    (hfail : modelLoaded = false ∨
      scorer ((pending.take maxBatchSize).map (fun r => r.features)) = none) :
    ∀ r ∈ (batcherStep maxBatchSize modelLoaded scorer pending).1,
      r.result = some 0 := by
  intro r hr
  unfold batcherStep processBatch predictBatchSync at hr
  rcases hfail with hfail | hfail
  · subst hfail
    simp only [Bool.false_eq_true, if_false] at hr
    rcases List.mem_map.1 hr with ⟨x, -, rfl⟩
    rfl
  · cases modelLoaded with
    | false =>
        simp only [Bool.false_eq_true, if_false] at hr
        rcases List.mem_map.1 hr with ⟨x, -, rfl⟩
        rfl
    | true =>
        rw [if_pos rfl, hfail] at hr
        exact zipSetResults_replicate_zero _ _ (by simp) r hr

/-- Witness for C3 (amended): applying the theorem to the concrete
always-raising scorer, the first caller's result slot holds the numeric
score `0.0`. -/
theorem c3_failed_batch_returns_zero_witness :
    ({ features := 10, result := some 0 } : PredictionRequestM ℕ).result
      = some 0 :=
  c3_failed_batch_returns_zero 64 true alwaysFailScorer cPending
    (Or.inr rfl) { features := 10, result := some 0 }
    (by simp [batcherStep, processBatch, predictBatchSync, alwaysFailScorer,
      cPending, zipSetResults, List.replicate])

/-!
### Ranking pipeline

`ranking-service/app/services/ranking_service.py`, `rank_candidates`:
each candidate is scored (a per-candidate failure yields score `0.0`) and
the scored list is sorted by `ranking_score` alone, descending, with
Python's stable `sorted`.
-/

/-- A ranking candidate: its id and the popularity score carried by the
upstream result (`content_id` plus extras in the candidate dict). -/
structure RankCandidate where
  content_id : String
  popularity_score : ℚ
deriving DecidableEq, Repr

/-- A candidate with the `ranking_score` attached by `rank_candidates`
(`candidate_with_score`). -/
structure ScoredCandidate where
  cand : RankCandidate
  ranking_score : ℚ
deriving DecidableEq, Repr

/-- `RankingService.rank_candidates`: score every candidate — a scoring
failure (`scoring c = none`, the per-candidate `except` branch) yields
`0.0` — and sort by `ranking_score` only, descending
(`sorted(scored_candidates, key=lambda x: x['ranking_score'],
reverse=True)`, a stable sort). -/
def rankCandidates (scoring : RankCandidate → Option ℚ)
    (candidates : List RankCandidate) : List ScoredCandidate :=
  let scored := candidates.map
    (fun c => { cand := c, ranking_score := (scoring c).getD 0 : ScoredCandidate })
  pySortDesc (fun x => x.ranking_score) scored

/-- Candidate A of scenario S3: popularity 5. -/
def candA : RankCandidate := { content_id := "A", popularity_score := 5 }

/-- Candidate B of scenario S3: popularity 9. -/
def candB : RankCandidate := { content_id := "B", popularity_score := 9 }

/-- A scorer that returns 0.42 for every candidate. -/
def constScoring : RankCandidate → Option ℚ := fun _ => some (21/50)

/-- C1 counterexample (scenario S3): with candidates `[A, B]`, A of
popularity 5 and B of popularity 9, both scoring 0.42, `rank_candidates`
returns `[A, B]` — the stable sort keeps the input order on ties and
applies no popularity or id tiebreak — while the claim demands `[B, A]`. -/
theorem c1_counterexample :
    rankCandidates constScoring [candA, candB] =
      [{ cand := candA, ranking_score := 21/50 },
       { cand := candB, ranking_score := 21/50 }] ∧
    [({ cand := candA, ranking_score := 21/50 } : ScoredCandidate),
       { cand := candB, ranking_score := 21/50 }] ≠
      [{ cand := candB, ranking_score := 21/50 },
       { cand := candA, ranking_score := 21/50 }] := by
  constructor
  · show pySortDesc _ _ = _
    simp only [rankCandidates, pySortDesc, List.foldl_cons, List.foldl_nil,
      List.map_cons, List.map_nil, insertDesc, constScoring, Option.getD_some]
    rw [if_pos (le_refl ((21:ℚ)/50))]
  · intro h
    simp [candA, candB] at h

/-- C1 (amended): the output of `rank_candidates` is non-increasing in
`ranking_score` and is a permutation of the scored input; ties keep the
input order (stability: for every score value the sub-sequence at that
score is unchanged).  There is no popularity or ItemId tiebreak. -/
theorem c1_rank_sort_order (scoring : RankCandidate → Option ℚ)
    (candidates : List RankCandidate) :
    (rankCandidates scoring candidates).Pairwise
        (fun x y => y.ranking_score ≤ x.ranking_score) ∧
    (rankCandidates scoring candidates).Perm
        (candidates.map (fun c => { cand := c, ranking_score := (scoring c).getD 0 })) ∧
    (∀ q : ℚ, (rankCandidates scoring candidates).filter
          (fun x => decide (x.ranking_score = q)) =
        (candidates.map (fun c =>
            ({ cand := c, ranking_score := (scoring c).getD 0 } : ScoredCandidate))).filter
          (fun x => decide (x.ranking_score = q))) :=
  ⟨pySortDesc_sorted _ _, pySortDesc_perm _ _, fun q => pySortDesc_filter_eq _ _ q⟩

/-- A scorer that fails (raises) exactly on candidate "B". -/
def failsOnB : RankCandidate → Option ℚ :=
  fun c => if c.content_id = "B" then none else some 1

/-- C6: the ranked output contains exactly the input candidates — none
dropped, none duplicated — and every candidate whose scoring raised
carries `ranking_score = 0.0`. -/
theorem c6_candidates_preserved (scoring : RankCandidate → Option ℚ)
    (candidates : List RankCandidate) :
    ((rankCandidates scoring candidates).map (fun x => x.cand)).Perm candidates ∧
    ∀ x ∈ rankCandidates scoring candidates,
      scoring x.cand = none → x.ranking_score = 0 := by
  constructor
  · have h := (pySortDesc_perm (fun x : ScoredCandidate => x.ranking_score)
      (candidates.map (fun c => { cand := c, ranking_score := (scoring c).getD 0 }))).map
      (fun x => x.cand)
    rw [show rankCandidates scoring candidates
        = pySortDesc (fun x => x.ranking_score)
            (candidates.map (fun c => { cand := c, ranking_score := (scoring c).getD 0 }))
      from rfl]
    refine h.trans ?_
    rw [List.map_map,
      show ((fun x : ScoredCandidate => x.cand) ∘ fun c =>
          ({ cand := c, ranking_score := (scoring c).getD 0 } : ScoredCandidate)) = id
        from rfl,
      List.map_id]
  · intro x hx hfail
    have hx' : x ∈ candidates.map
        (fun c => ({ cand := c, ranking_score := (scoring c).getD 0 } : ScoredCandidate)) :=
      (pySortDesc_perm _ _).mem_iff.1 hx
    rcases List.mem_map.1 hx' with ⟨c, -, rfl⟩
    simp only at hfail ⊢
    rw [hfail]
    rfl

/-- Witness for C6: with a scorer that raises on candidate "B", the
ranked output of `[A, B]` is a permutation of the input and the entry for
B carries score 0. -/
theorem c6_candidates_preserved_witness :
    (((rankCandidates failsOnB [candA, candB]).map (fun x => x.cand)).Perm
        [candA, candB]) ∧
    ({ cand := candB, ranking_score := 0 } : ScoredCandidate).ranking_score = 0 :=
  ⟨(c6_candidates_preserved failsOnB [candA, candB]).1,
    (c6_candidates_preserved failsOnB [candA, candB]).2
      { cand := candB, ranking_score := 0 }
      (by simp [rankCandidates, pySortDesc, insertDesc, failsOnB, candA, candB])
      (by simp [failsOnB, candB])⟩

/-!
### Fusion and rerank pipeline

`ranking-service/app/services/fusion_reranking_service.py`: weighted
fusion of per-algorithm result lists, dedup (exact by id, then Jaccard
near-dedup), business-rule filtering, MMR diversification, and a final
boost-composition sort.  Python dicts are association lists in insertion
order.
-/

/-- An item flowing through the fusion pipeline: the dict fields the
service reads, each optional where the code uses `.get` with a default,
plus the score fields the pipeline writes (`fusion_score`,
`algorithm_coverage`, `final_score`). -/
structure Content where
  content_id : String
  title : Option String := none
  summary : Option String := none
  description : Option String := none
  score : Option ℚ := none
  ranking_score : Option ℚ := none
  quality_score : Option ℚ := none
  publish_time : Option ℤ := none
  category : Option String := none
  author_id : Option String := none
  user_rating : Option ℚ := none
  review_status : Option String := none
  content_type : Option String := none
  fusion_score : ℚ := 0
  algorithm_coverage : ℕ := 0
  final_score : ℚ := 0
deriving DecidableEq, Repr

/-- Dict lookup in an association list (Python `d.get(k)`). -/
def lookup? {β : Type} (k : String) (m : List (String × β)) : Option β :=
  (m.find? (fun p => decide (p.1 = k))).map (fun p => p.2)

/-- `if content_id not in all_contents: all_contents[content_id] = ...` —
keep the first occurrence, append new keys at the end. -/
def dictInsertIfAbsent {β : Type} (k : String) (v : β)
    (m : List (String × β)) : List (String × β) :=
  match lookup? k m with
  | some _ => m
  | none => m ++ [(k, v)]

/-- Dict assignment `d[k] = v`: replace in place, or append a new key. -/
def dictSet {β : Type} (k : String) (v : β) :
    List (String × β) → List (String × β)
  | [] => [(k, v)]
  | p :: ps => if p.1 = k then (k, v) :: ps else p :: dictSet k v ps

/-- The per-(algorithm, item) score record stored in `content_scores`:
the combined score `rawScore · positionScore` and the algorithm weight. -/
structure AlgoScore where
  score : ℚ
  weight : ℚ
deriving DecidableEq, Repr

/-- The collection pass of `_fuse_algorithm_results`: walk the algorithm
results in order, record each item's first-seen dict in `all_contents`
and its per-algorithm `{score, weight}` entries in `content_scores`.
`positionScore = 1/(idx+1)`; the raw score is `content.get('score',
content.get('ranking_score', 0.5))`; unknown algorithms get weight 0.1. -/
def fuseCollect (weights : List (String × ℚ))
    (ars : List (String × List Content)) :
    List (String × Content) × List (String × List (String × AlgoScore)) :=
  ars.foldl (fun acc ar =>
    let w := (lookup? ar.1 weights).getD (1/10)
    ar.2.enum.foldl (fun acc2 p =>
      let positionScore : ℚ := 1 / ((p.1 : ℚ) + 1)
      let originalScore := (p.2.score.orElse (fun _ => p.2.ranking_score)).getD (1/2)
      let combined := originalScore * positionScore
      let inner := (lookup? p.2.content_id acc2.2).getD []
      (dictInsertIfAbsent p.2.content_id p.2 acc2.1,
        dictSet p.2.content_id
          (dictSet ar.1 { score := combined, weight := w } inner) acc2.2))
      acc)
    ([], [])

/-- `_fuse_algorithm_results`: weighted fusion score
`Σ score·weight / Σ weight` (0 when the total weight is not positive)
plus the coverage bonus `#producing / #configured · 0.1`, then a stable
sort by descending `fusion_score`. -/
def fuseAlgorithmResults (weights : List (String × ℚ))
    (ars : List (String × List Content)) : List Content :=
  let collected := fuseCollect weights ars
  let fused := collected.1.map (fun e =>
    let algoScores := (lookup? e.1 collected.2).getD []
    let weightedScore := (algoScores.map (fun a => a.2.score * a.2.weight)).sum
    let totalWeight := (algoScores.map (fun a => a.2.weight)).sum
    let base := if 0 < totalWeight then weightedScore / totalWeight else 0
    let coverageBonus := (algoScores.length : ℚ) / (weights.length : ℚ) * (1/10)
    { e.2 with fusion_score := base + coverageBonus,
               algorithm_coverage := algoScores.length })
  pySortDesc (fun c => c.fusion_score) fused

/-- Configuration of the dedup stage (`dedup_config`). -/
structure DedupConfig where
  similarity_threshold : ℚ
  title_similarity_weight : ℚ
  content_similarity_weight : ℚ
deriving DecidableEq, Repr

/-- The default `dedup_config` of `_get_default_config`. -/
def defaultDedupConfig : DedupConfig :=
  { similarity_threshold := 4/5
    title_similarity_weight := 2/5
    content_similarity_weight := 3/5 }

/-- Python `str.split()`: split on whitespace, dropping empty tokens. -/
def pySplit (s : String) : List String :=
  (s.split (fun c => c.isWhitespace)).filter (fun t => ¬ t.isEmpty)

/-- `_calculate_text_similarity`: 0 when either raw string is empty, 1
when both token sets are empty, otherwise the Jaccard similarity of the
space-token sets. -/
def calculateTextSimilarity (t1 t2 : String) : ℚ :=
  if t1.isEmpty ∨ t2.isEmpty then 0
  else
    let words1 := (pySplit t1).toFinset
    let words2 := (pySplit t2).toFinset
    if words1 = ∅ ∧ words2 = ∅ then 1
    else
      let u := (words1 ∪ words2).card
      if 0 < u then ((words1 ∩ words2).card : ℚ) / (u : ℚ) else 0

/-- The lower-cased title compared by `_is_similar_to_existing`
(`content.get('title', '').lower()`). -/
def contentTitle (c : Content) : String := (c.title.getD "").toLower

/-- The lower-cased summary text compared by `_is_similar_to_existing`
(`content.get('summary', content.get('description', '')).lower()`). -/
def contentSummary (c : Content) : String :=
  ((c.summary.orElse (fun _ => c.description)).getD "").toLower

/-- The combined similarity
`titleSim · wTitle + summarySim · wContent` of
`_is_similar_to_existing`. -/
def overallSimilarity (cfg : DedupConfig) (a b : Content) : ℚ :=
  calculateTextSimilarity (contentTitle a) (contentTitle b) * cfg.title_similarity_weight +
    calculateTextSimilarity (contentSummary a) (contentSummary b) * cfg.content_similarity_weight

/-- `_is_similar_to_existing`: true when some already-kept item has
combined similarity strictly above the threshold. -/
def isSimilarToExisting (cfg : DedupConfig) (c : Content)
    (existing : List Content) : Bool :=
  existing.any (fun e => decide (cfg.similarity_threshold < overallSimilarity cfg c e))

/-- The loop of `_deduplicate_results`: skip ids already seen, skip items
similar to an already-kept one, keep the rest in order. -/
def dedupGo (cfg : DedupConfig) :
    List Content → List Content → List String → List Content
  | [], kept, _ => kept
  | c :: rest, kept, seen =>
      if c.content_id ∈ seen then dedupGo cfg rest kept seen
      else if isSimilarToExisting cfg c kept then dedupGo cfg rest kept seen
      else dedupGo cfg rest (kept ++ [c]) (seen ++ [c.content_id])

/-- `_deduplicate_results`. -/
def deduplicateResults (cfg : DedupConfig) (results : List Content) : List Content :=
  dedupGo cfg results [] []

/-- Configuration of the policy filter (`business_rules`). -/
structure BusinessRules where
  min_content_quality_score : ℚ
  max_content_age_days : ℤ
  blocked_categories : List String
  blocked_authors : List String
  min_user_rating : ℚ
  require_content_review : Bool
deriving DecidableEq, Repr

/-- The default `business_rules` of `_get_default_config`. -/
def defaultBusinessRules : BusinessRules :=
  { min_content_quality_score := 3/5
    max_content_age_days := 30
    blocked_categories := []
    blocked_authors := []
    min_user_rating := 3
    require_content_review := true }

/-- The per-reason rejection counters of `_apply_business_rules`
(`filter_stats` keys). -/
inductive FilterReason where
  | low_quality
  | too_old
  | blocked_category
  | blocked_author
  | low_rating
  | not_reviewed
deriving DecidableEq, Repr

/-- `(current_time - publish_datetime).days`: Python `timedelta.days`
floors, so with timestamps in seconds this is `fdiv (now - pt) 86400`. -/
def contentAgeDays (now pt : ℤ) : ℤ := Int.fdiv (now - pt) 86400

/-- The check chain of `_apply_business_rules` for one item, returning
the first rejection reason, or `none` when the item passes.  Missing
fields use the code's `.get` defaults: quality 0.8, category and author
the empty string, rating 5.0, review status "pending".  The trailing
`_check_user_preferences` always returns `True` in the source, so it
rejects nothing. -/
def itemVerdict (rules : BusinessRules) (now : ℤ) (c : Content) :
    Option FilterReason :=
  if (c.quality_score.getD (4/5)) < rules.min_content_quality_score then
    some .low_quality
  else if (match c.publish_time with
           | some pt => decide (rules.max_content_age_days < contentAgeDays now pt)
           | none => false) then
    some .too_old
  else if (c.category.getD "") ∈ rules.blocked_categories then
    some .blocked_category
  else if (c.author_id.getD "") ∈ rules.blocked_authors then
    some .blocked_author
  else if (c.user_rating.getD 5) < rules.min_user_rating then
    some .low_rating
  else if rules.require_content_review ∧ (c.review_status.getD "pending") ≠ "approved" then
    some .not_reviewed
  else
    none

/-- `_apply_business_rules`: keep exactly the items with no rejection
reason, in order. -/
def applyBusinessRules (rules : BusinessRules) (now : ℤ)
    (results : List Content) : List Content :=
  results.filter (fun c => (itemVerdict rules now c).isNone)

/-- Configuration of the diversity stage (`diversity_config`). -/
structure DiversityConfig where
  category_diversity_weight : ℚ
  content_type_diversity_weight : ℚ
  author_diversity_weight : ℚ
  time_diversity_weight : ℚ
  max_same_category_ratio : ℚ
  max_same_author_ratio : ℚ
deriving DecidableEq, Repr

/-- The `defaultdict(int)` counters kept by `_ensure_diversity`. -/
structure DivCounters where
  category : String → ℕ
  ctype : String → ℕ
  author : String → ℕ
  timeBucket : ℤ × ℤ → ℕ

/-- The all-zero counters. -/
def emptyCounters : DivCounters :=
  { category := fun _ => 0
    ctype := fun _ => 0
    author := fun _ => 0
    timeBucket := fun _ => 0 }

/-- Increment one key of a counter. -/
def bumpCounter {κ : Type} [DecidableEq κ] (k : κ) (f : κ → ℕ) : κ → ℕ :=
  fun x => if x = k then f x + 1 else f x

/-- The six-hour time bucket `f"{dt.date()}_{dt.hour//6}"` of a
timestamp: the day number and the hour-of-day divided by 6. -/
def timeBucketOf (pt : ℤ) : ℤ × ℤ :=
  (Int.fdiv pt 86400, Int.fdiv (Int.fdiv (Int.emod pt 86400) 3600) 6)

/-- `_update_diversity_counters`: bump category, content-type and author
(with `'unknown'` defaults) and, when a publish time is present, its
six-hour bucket. -/
def updateDiversityCounters (c : Content) (k : DivCounters) : DivCounters :=
  { category := bumpCounter (c.category.getD "unknown") k.category
    ctype := bumpCounter (c.content_type.getD "unknown") k.ctype
    author := bumpCounter (c.author_id.getD "unknown") k.author
    timeBucket := match c.publish_time with
      | some pt => bumpCounter (timeBucketOf pt) k.timeBucket
      | none => k.timeBucket }

/-- `_calculate_diversity_score`: 1 when nothing is selected yet;
otherwise the weighted sum of the four axis scores (category and author
use a ratio cap with linear penalty, content type and time bucket the
plain `1 - ratio`), clamped into `[0, 1]`.  An absent publish time
contributes nothing. -/
def calculateDiversityScore (dcfg : DiversityConfig) (c : Content)
    (selectedLen : ℕ) (k : DivCounters) : ℚ :=
  if selectedLen = 0 then 1
  else
    let total : ℚ := (selectedLen : ℚ)
    let categoryRatio := (k.category (c.category.getD "unknown") : ℚ) / total
    let s1 := (1 - max 0 (categoryRatio - dcfg.max_same_category_ratio)) *
      dcfg.category_diversity_weight
    let typeRatio := (k.ctype (c.content_type.getD "unknown") : ℚ) / total
    let s2 := (1 - typeRatio) * dcfg.content_type_diversity_weight
    let authorRatio := (k.author (c.author_id.getD "unknown") : ℚ) / total
    let s3 := (1 - max 0 (authorRatio - dcfg.max_same_author_ratio)) *
      dcfg.author_diversity_weight
    let s4 := match c.publish_time with
      | some pt => (1 - (k.timeBucket (timeBucketOf pt) : ℚ) / total) *
          dcfg.time_diversity_weight
      | none => 0
    min 1 (max 0 (s1 + s2 + s3 + s4))

/-- The `λ·relevance + (1-λ)·diversity` objective of the MMR loop, with
the hard-coded `lambda_param = 0.7`. -/
def combinedScore (dcfg : DiversityConfig) (selectedLen : ℕ)
    (k : DivCounters) (c : Content) : ℚ :=
  (7/10) * c.fusion_score + (3/10) * calculateDiversityScore dcfg c selectedLen k

/-- The candidate scan of the MMR loop: starting from
`best_score = -1`, keep the first index whose objective strictly exceeds
the best so far. -/
def pickBest (f : Content → ℚ) (remaining : List Content) : Option ℕ :=
  (remaining.enum.foldl
    (fun (best : Option ℕ × ℚ) p =>
      if best.2 < f p.2 then (some p.1, f p.2) else best)
    (none, -1)).1

lemma pickBest_lt (f : Content → ℚ) (remaining : List Content) (i : ℕ)
    (h : pickBest f remaining = some i) : i < remaining.length := by
  unfold pickBest at h
  suffices hgen : ∀ (l : List (ℕ × Content)) (s : Option ℕ × ℚ),
      (∀ j, s.1 = some j → j < remaining.length) →
      (∀ p ∈ l, p.1 < remaining.length) →
      ∀ j, (l.foldl (fun (best : Option ℕ × ℚ) p =>
          if best.2 < f p.2 then (some p.1, f p.2) else best) s).1 = some j →
        j < remaining.length by
    refine hgen remaining.enum (none, -1) (by simp) ?_ i h
    intro p hp
    exact (List.mem_enum hp).1
  intro l
  induction l with
  | nil => intro s hs _ j hj; exact hs j hj
  | cons p l ih =>
      intro s hs hl j hj
      rw [List.foldl_cons] at hj
      refine ih _ ?_ (fun q hq => hl q (List.mem_cons_of_mem p hq)) j hj
      intro j' hj'
      by_cases hcmp : s.2 < f p.2
      · rw [if_pos hcmp] at hj'
        cases hj'
        exact hl p (List.mem_cons_self p l)
      · rw [if_neg hcmp] at hj'
        exact hs j' hj'

/-- The iterative selection loop of `_ensure_diversity`: while fewer than
`target` items are selected and candidates remain, move the best-scoring
candidate from `remaining` to the selection and update the counters.
When no candidate beats the initial best score `-1` the loop makes no
further progress (the Python loop would spin without selecting). -/
def mmrSelect (dcfg : DiversityConfig) (target : ℕ) (selected : List Content)
    (k : DivCounters) (remaining : List Content) : List Content :=
  if selected.length < target ∧ remaining ≠ [] then
    match hp : pickBest (combinedScore dcfg selected.length k) remaining with
    | none => selected
    | some i =>
        let c := remaining.get ⟨i, pickBest_lt _ _ i hp⟩
        mmrSelect dcfg target (selected ++ [c])
          (updateDiversityCounters c k) (remaining.eraseIdx i)
  else selected
termination_by remaining.length
decreasing_by
  simp only [List.length_eraseIdx, pickBest_lt _ _ i hp, if_pos]
  have := pickBest_lt (combinedScore dcfg selected.length k) remaining i hp
  omega

/-- `_ensure_diversity`: lists already within the target size are
returned unchanged; otherwise the first (highest-fusion-score) item seeds
the selection and the MMR loop fills up to `target_size`. -/
def ensureDiversity (dcfg : DiversityConfig) (results : List Content)
    (targetSize : ℕ) : List Content :=
  if results.length ≤ targetSize then results
  else
    match results with
    | [] => []
    | first :: rest =>
        mmrSelect dcfg targetSize [first]
          (updateDiversityCounters first emptyCounters) rest

/-- Configuration of the final boost composition
(`final_ranking_config`); the boost half-life and popularity cap live
inside the abstracted boost functions. -/
structure FinalRankingConfig where
  base_score_weight : ℚ
  freshness_boost_weight : ℚ
  popularity_boost_weight : ℚ
  personalization_boost_weight : ℚ
deriving DecidableEq, Repr

/-- `_final_ranking_optimization`: attach
`final_score = base·wB + freshness·wF + popularity·wP +
personalization·wPz` and sort by descending `final_score` (stable).  The
three boost computations (`_calculate_freshness_boost` with `math.exp`,
`_calculate_popularity_boost` with `math.log`, and the context-driven
`_calculate_personalization_boost`) are transcendental float
computations; they are passed in as the functions `fb`, `pb`, `pzb`, and
no theorem below depends on their values. -/
def finalRankingOptimization (cfg : FinalRankingConfig)
    (fb pb pzb : Content → ℚ) (results : List Content) : List Content :=
  pySortDesc (fun c => c.final_score)
    (results.map (fun c =>
      { c with final_score :=
          (c.fusion_score * cfg.base_score_weight +
            fb c * cfg.freshness_boost_weight +
            pb c * cfg.popularity_boost_weight +
            pzb c * cfg.personalization_boost_weight) }))

/-- `fuse_and_rerank`, non-degraded path: fusion, dedup, policy filter,
diversification, final boost sort, and truncation to `target_size`. -/
def fuseAndRerank (weights : List (String × ℚ)) (dedupCfg : DedupConfig)
    (rules : BusinessRules) (now : ℤ) (divCfg : DiversityConfig)
    (frCfg : FinalRankingConfig) (fb pb pzb : Content → ℚ)
    (ars : List (String × List Content)) (targetSize : ℕ) : List Content :=
  let fused := fuseAlgorithmResults weights ars
  let ded := deduplicateResults dedupCfg fused
  let filt := applyBusinessRules rules now ded
  let div := ensureDiversity divCfg filt targetSize
  let fin := finalRankingOptimization frCfg fb pb pzb div
  fin.take targetSize

/-- The default `diversity_config` of `_get_default_config`. -/
def defaultDiversityConfig : DiversityConfig :=
  { category_diversity_weight := 3/10
    content_type_diversity_weight := 1/5
    author_diversity_weight := 1/5
    time_diversity_weight := 3/10
    max_same_category_ratio := 2/5
    max_same_author_ratio := 3/10 }

/-- C9: when at most `target_size` items survive dedup and policy
filtering, `_ensure_diversity` returns the list unchanged (same items,
same order); the MMR greedy loop runs only when strictly more items
remain. -/
theorem c9_diversity_identity (dcfg : DiversityConfig)
    (results : List Content) (targetSize : ℕ)
    (h : results.length ≤ targetSize) :
    ensureDiversity dcfg results targetSize = results := by
  unfold ensureDiversity
  rw [if_pos h]

/-- A minimal concrete item. -/
def itemP : Content := { content_id := "p" }

/-- A second minimal concrete item. -/
def itemQ : Content := { content_id := "q" }

/-- Witness for C9: two surviving items with target size three pass
through the diversity stage unchanged. -/
theorem c9_diversity_identity_witness :
    ensureDiversity defaultDiversityConfig [itemP, itemQ] 3 = [itemP, itemQ] :=
  c9_diversity_identity defaultDiversityConfig [itemP, itemQ] 3 (by simp)

/-- C10: the policy filter judges missing fields against fixed defaults —
quality 0.8, viewer rating 5.0, review status "pending".  Under the
default configuration an item lacking `quality_score` is never rejected
as `low_quality` (0.8 ≥ 0.6) and one lacking `user_rating` is never
rejected as `low_rating` (5.0 ≥ 3.0), while an item lacking
`review_status` is always rejected (its default "pending" is not
"approved" and review is required), so it never appears in the filter's
output. -/
theorem c10_policy_defaults (now : ℤ) (c : Content) :
    (c.quality_score = none →
      itemVerdict defaultBusinessRules now c ≠ some FilterReason.low_quality) ∧
    (c.user_rating = none →
      itemVerdict defaultBusinessRules now c ≠ some FilterReason.low_rating) ∧
    (c.review_status = none →
      ∀ l : List Content, c ∉ applyBusinessRules defaultBusinessRules now l) := by
  refine ⟨?_, ?_, ?_⟩
  · intro hq
    unfold itemVerdict
    rw [hq]
    simp only [Option.getD_none]
    rw [if_neg (by norm_num [defaultBusinessRules])]
    split_ifs <;> simp
  · intro hr
    unfold itemVerdict
    rw [hr]
    simp only [Option.getD_none]
    split_ifs with h1 h2 h3 h4 h5 h6
    · simp
    · simp
    · simp
    · simp
    · exact absurd h5 (by norm_num [defaultBusinessRules])
    · simp
    · simp
  · intro hrs
    have hv : itemVerdict defaultBusinessRules now c = some FilterReason.not_reviewed ∨
        (itemVerdict defaultBusinessRules now c).isSome := by
      unfold itemVerdict
      rw [hrs]
      simp only [Option.getD_none]
      split_ifs with h1 h2 h3 h4 h5 h6
      · right; rfl
      · right; rfl
      · right; rfl
      · right; rfl
      · right; rfl
      · left; rfl
      · exact absurd ⟨rfl, by decide⟩ h6
    have hsome : (itemVerdict defaultBusinessRules now c).isSome := by
      rcases hv with hv | hv
      · rw [hv]; rfl
      · exact hv
    intro l hl
    rcases List.mem_filter.1 hl with ⟨-, hnone⟩
    rw [Option.isNone_iff_eq_none] at hnone
    rw [hnone] at hsome
    exact absurd hsome (by simp)

/-- A concrete item carrying none of the three optional policy fields. -/
def itemNoMeta : Content := { content_id := "m" }

/-- Witness for C10 at the concrete item with all three fields missing. -/
theorem c10_policy_defaults_witness :
    (itemVerdict defaultBusinessRules 0 itemNoMeta ≠ some FilterReason.low_quality) ∧
    (itemVerdict defaultBusinessRules 0 itemNoMeta ≠ some FilterReason.low_rating) ∧
    itemNoMeta ∉ applyBusinessRules defaultBusinessRules 0 [itemNoMeta] :=
  ⟨(c10_policy_defaults 0 itemNoMeta).1 rfl,
    (c10_policy_defaults 0 itemNoMeta).2.1 rfl,
    (c10_policy_defaults 0 itemNoMeta).2.2 rfl [itemNoMeta]⟩

/-- Item X of scenario S4: raw score 0.8, produced only by algorithm 1. -/
def itemX : Content := { content_id := "X", score := some (4/5) }

/-- Item Y of scenario S4: raw score 0.8, produced by both algorithms. -/
def itemY : Content := { content_id := "Y", score := some (4/5) }

/-- The two configured algorithms of scenario S4, weight 0.5 each. -/
def weightsHalfHalf : List (String × ℚ) := [("algo1", 1/2), ("algo2", 1/2)]

/-- C8 (scenario S4): with two configured algorithms of weight 0.5 each,
item Y produced by both at rank 1 with raw score 0.8 fuses to 0.9, item X
produced only by algorithm 1 at rank 1 with raw score 0.8 fuses to 0.85;
the difference is exactly 0.05 = (2/2 − 1/2)·0.1, the coverage bonus. -/
theorem c8_coverage_bonus :
    ((fuseAlgorithmResults weightsHalfHalf
        [("algo1", [itemY]), ("algo2", [itemY])]).map (fun c => c.fusion_score)
      = [9/10]) ∧
    ((fuseAlgorithmResults weightsHalfHalf
        [("algo1", [itemX]), ("algo2", [])]).map (fun c => c.fusion_score)
      = [17/20]) ∧
    (9:ℚ)/10 - 17/20 = 1/20 ∧
    ((2:ℚ)/2 - 1/2) * (1/10) = 1/20 := by
  refine ⟨?_, ?_, by norm_num, by norm_num⟩
  · simp [fuseAlgorithmResults, fuseCollect, lookup?, dictInsertIfAbsent,
      dictSet, pySortDesc, insertDesc, itemY, weightsHalfHalf,
      List.enum, List.enumFrom, List.find?, List.filter]
    norm_num
  · simp [fuseAlgorithmResults, fuseCollect, lookup?, dictInsertIfAbsent,
      dictSet, pySortDesc, insertDesc, itemX, weightsHalfHalf,
      List.enum, List.enumFrom, List.find?, List.filter]
    norm_num

lemma calculateTextSimilarity_comm (t1 t2 : String) :
    calculateTextSimilarity t1 t2 = calculateTextSimilarity t2 t1 := by
  unfold calculateTextSimilarity
  rcases Decidable.em (t1.isEmpty = true) with h1 | h1
  · rw [if_pos (Or.inl h1), if_pos (Or.inr h1)]
  · rcases Decidable.em (t2.isEmpty = true) with h2 | h2
    · rw [if_pos (Or.inr h2), if_pos (Or.inl h2)]
    · rw [if_neg (show ¬ (t1.isEmpty = true ∨ t2.isEmpty = true) by tauto),
        if_neg (show ¬ (t2.isEmpty = true ∨ t1.isEmpty = true) by tauto)]
      dsimp only
      rw [Finset.inter_comm, Finset.union_comm]
      rcases Decidable.em ((pySplit t1).toFinset = ∅ ∧ (pySplit t2).toFinset = ∅)
        with e | e
      · rw [if_pos e, if_pos (and_comm.1 e)]
      · rw [if_neg e, if_neg (fun h => e (and_comm.1 h))]

lemma overallSimilarity_comm (cfg : DedupConfig) (a b : Content) :
    overallSimilarity cfg a b = overallSimilarity cfg b a := by
  unfold overallSimilarity
  rw [calculateTextSimilarity_comm (contentTitle a) (contentTitle b),
    calculateTextSimilarity_comm (contentSummary a) (contentSummary b)]

/-- The pairwise guarantee of the dedup stage: distinct ids and combined
similarity within the threshold. -/
def dedupR (cfg : DedupConfig) (a b : Content) : Prop :=
  a.content_id ≠ b.content_id ∧
    overallSimilarity cfg a b ≤ cfg.similarity_threshold

lemma dedupR_symm (cfg : DedupConfig) {a b : Content} (h : dedupR cfg a b) :
    dedupR cfg b a :=
  ⟨Ne.symm h.1, by rw [overallSimilarity_comm]; exact h.2⟩

lemma dedupGo_pairwise (cfg : DedupConfig) :
    ∀ (rest kept : List Content) (seen : List String),
      kept.Pairwise (dedupR cfg) → (∀ e ∈ kept, e.content_id ∈ seen) →
      (dedupGo cfg rest kept seen).Pairwise (dedupR cfg) := by
  intro rest
  induction rest with
  | nil => intro kept seen hk _; exact hk
  | cons c rest ih =>
      intro kept seen hk hseen
      by_cases hid : c.content_id ∈ seen
      · rw [dedupGo, if_pos hid]
        exact ih kept seen hk hseen
      · rw [dedupGo, if_neg hid]
        by_cases hsim : isSimilarToExisting cfg c kept = true
        · rw [if_pos hsim]
          exact ih kept seen hk hseen
        · rw [if_neg hsim]
          refine ih (kept ++ [c]) (seen ++ [c.content_id]) ?_ ?_
          · rw [List.pairwise_append]
            refine ⟨hk, by simp, ?_⟩
            intro e he b hb
            rw [List.mem_singleton] at hb
            rw [hb]
            have hsimle : overallSimilarity cfg c e ≤ cfg.similarity_threshold := by
              rw [isSimilarToExisting, List.any_eq_true] at hsim
              push_neg at hsim
              have := hsim e he
              simp only [ne_eq, decide_eq_true_eq] at this
              exact le_of_not_lt this
            refine ⟨?_, by rw [overallSimilarity_comm]; exact hsimle⟩
            intro heq
            exact hid (heq ▸ hseen e he)
          · intro e he
            rcases List.mem_append.1 he with he | he
            · exact List.mem_append.2 (Or.inl (hseen e he))
            · rw [List.mem_singleton] at he
              subst he
              exact List.mem_append.2 (Or.inr (by simp))

lemma deduplicateResults_pairwise (cfg : DedupConfig) (l : List Content) :
    (deduplicateResults cfg l).Pairwise (dedupR cfg) :=
  dedupGo_pairwise cfg l [] [] (by simp) (by simp)

lemma perm_get_cons_eraseIdx {α : Type} (l : List α) (i : ℕ) (h : i < l.length) :
    l.Perm (l.get ⟨i, h⟩ :: l.eraseIdx i) := by
  conv_lhs => rw [← List.take_append_drop i l]
  rw [List.eraseIdx_eq_take_drop_succ, show l.drop i = l[i] :: l.drop (i + 1)
    from List.drop_eq_getElem_cons h]
  exact List.perm_middle

lemma mmrSelect_eq_append (dcfg : DiversityConfig) (target : ℕ) :
    ∀ (n : ℕ) (remaining : List Content), remaining.length ≤ n →
      ∀ (selected : List Content) (k : DivCounters),
        ∃ picks, mmrSelect dcfg target selected k remaining = selected ++ picks ∧
          picks.Subperm remaining := by
  intro n
  induction n with
  | zero =>
      intro remaining hlen selected k
      have : remaining = [] := List.length_eq_zero.1 (Nat.le_zero.1 hlen)
      subst this
      rw [mmrSelect]
      refine ⟨[], ?_, List.nil_subperm⟩
      rw [if_neg (by simp), List.append_nil]
  | succ n ih =>
      intro remaining hlen selected k
      rw [mmrSelect]
      by_cases hcond : selected.length < target ∧ remaining ≠ []
      · rw [if_pos hcond]
        split
        · exact ⟨[], by simp, List.nil_subperm⟩
        · rename_i i hp
          have hi : i < remaining.length := pickBest_lt _ _ i hp
          have hlen' : (remaining.eraseIdx i).length ≤ n := by
            rw [List.length_eraseIdx, if_pos hi]
            omega
          obtain ⟨picks, heq, hsub⟩ := ih (remaining.eraseIdx i) hlen'
            (selected ++ [remaining.get ⟨i, hi⟩])
            (updateDiversityCounters (remaining.get ⟨i, hi⟩) k)
          refine ⟨remaining.get ⟨i, hi⟩ :: picks, ?_, ?_⟩
          · rw [heq, List.append_assoc]
            rfl
          · refine List.Subperm.trans ?_ (perm_get_cons_eraseIdx remaining i hi).symm.subperm
            exact (List.subperm_cons _).2 hsub
      · rw [if_neg hcond]
        exact ⟨[], by simp, List.nil_subperm⟩

lemma ensureDiversity_subperm (dcfg : DiversityConfig) (results : List Content)
    (targetSize : ℕ) :
    (ensureDiversity dcfg results targetSize).Subperm results := by
  unfold ensureDiversity
  by_cases h : results.length ≤ targetSize
  · rw [if_pos h]
  · rw [if_neg h]
    cases results with
    | nil => exact List.nil_subperm
    | cons first rest =>
        show (mmrSelect dcfg targetSize [first]
          (updateDiversityCounters first emptyCounters) rest).Subperm (first :: rest)
        obtain ⟨picks, heq, hsub⟩ := mmrSelect_eq_append dcfg targetSize
          rest.length rest (le_refl _) [first]
          (updateDiversityCounters first emptyCounters)
        rw [heq]
        show (first :: picks).Subperm (first :: rest)
        exact (List.subperm_cons _).2 hsub

lemma subperm_pairwise {α : Type} {R : α → α → Prop}
    (hsymm : ∀ {x y : α}, R x y → R y x) {l₁ l₂ : List α}
    (hsub : l₁.Subperm l₂) (h : l₂.Pairwise R) : l₁.Pairwise R := by
  obtain ⟨m, hm, hms⟩ := hsub
  exact (hm.pairwise_iff hsymm).1 (List.Pairwise.sublist hms h)

/-- C7: every FUSE output on the non-degraded path is pairwise
deduplicated — no two returned items share a `content_id` and no two
exceed the configured similarity threshold under the weighted title and
summary Jaccard combination. -/
theorem c7_fuse_dedup_soundness (weights : List (String × ℚ))
    (dedupCfg : DedupConfig) (rules : BusinessRules) (now : ℤ)
    (divCfg : DiversityConfig) (frCfg : FinalRankingConfig)
    (fb pb pzb : Content → ℚ) (ars : List (String × List Content))
    (targetSize : ℕ) :
    (fuseAndRerank weights dedupCfg rules now divCfg frCfg fb pb pzb ars
        targetSize).Pairwise
      (fun a b => a.content_id ≠ b.content_id ∧
        overallSimilarity dedupCfg a b ≤ dedupCfg.similarity_threshold) := by
  have hded : (deduplicateResults dedupCfg (fuseAlgorithmResults weights ars)).Pairwise
      (dedupR dedupCfg) := deduplicateResults_pairwise dedupCfg _
  have hfilt : (applyBusinessRules rules now
      (deduplicateResults dedupCfg (fuseAlgorithmResults weights ars))).Pairwise
      (dedupR dedupCfg) :=
    List.Pairwise.sublist (List.filter_sublist _) hded
  have hdiv : (ensureDiversity divCfg (applyBusinessRules rules now
      (deduplicateResults dedupCfg (fuseAlgorithmResults weights ars)))
        targetSize).Pairwise (dedupR dedupCfg) :=
    subperm_pairwise (fun h => dedupR_symm dedupCfg h)
      (ensureDiversity_subperm divCfg _ targetSize) hfilt
  have hmap : ((ensureDiversity divCfg (applyBusinessRules rules now
      (deduplicateResults dedupCfg (fuseAlgorithmResults weights ars)))
        targetSize).map (fun c =>
          { c with final_score :=
              (c.fusion_score * frCfg.base_score_weight +
                fb c * frCfg.freshness_boost_weight +
                pb c * frCfg.popularity_boost_weight +
                pzb c * frCfg.personalization_boost_weight) })).Pairwise
      (dedupR dedupCfg) := by
    rw [List.pairwise_map]
    exact hdiv.imp (fun {a b} h => h)
  have hfin : (finalRankingOptimization frCfg fb pb pzb
      (ensureDiversity divCfg (applyBusinessRules rules now
        (deduplicateResults dedupCfg (fuseAlgorithmResults weights ars)))
          targetSize)).Pairwise (dedupR dedupCfg) := by
    unfold finalRankingOptimization
    exact ((pySortDesc_perm (fun c => c.final_score) _).pairwise_iff
      (fun h => dedupR_symm dedupCfg h)).2 hmap
  show ((finalRankingOptimization frCfg fb pb pzb
      (ensureDiversity divCfg (applyBusinessRules rules now
        (deduplicateResults dedupCfg (fuseAlgorithmResults weights ars)))
          targetSize)).take targetSize).Pairwise _
  exact List.Pairwise.sublist (List.take_sublist _ _) hfin

end Rec
